import Mathlib

/-!
# Traffic light message queue and phase cycling

A shallow embedding of `src/TrafficLight.cpp`:

* `MessageQueue<T>` (`receive`, `send`) over a sequence whose *back* is the
  last element of a `List`;
* `TrafficLight` (constructor, `getCurrentPhase`, `setCurrentPhase`,
  `waitForGreen`, and the body of the endless loop of `cycleThroughPhases`).

Blocking is modelled by `Option`: `receive` on an empty queue has no result
(the caller stays inside `_condition.wait`).  The clock readings and the
values returned by `rand()` are inputs of the loop body.
-/

/-! ## Data model -/

/-- Modelled from the spec: the declaration of `TrafficLightPhase` is in the
header `TrafficLight.h`, which is not among the sources.  The spec gives an
enumeration with exactly two members; the code names them `red` and
`green`. -/
inductive TrafficLightPhase where
  | red
  | green
deriving DecidableEq, Repr

/-- Modelled from the spec: the declaration of the class `MessageQueue<T>` is
in the header `TrafficLight.h`, which is not among the sources.  The spec
gives an ordered, unbounded sequence of `T`; the code uses it through
`empty`, `back`, `pop_back` and `push_back`.  The member `_queue` is listed
oldest element first, so the most recently pushed element (the `back()` of
the container) is the last one.  The mutex and the condition variable carry
no data. -/
structure MessageQueue (T : Type) where
  _queue : List T
deriving DecidableEq, Repr

/-- Modelled from the spec: the declaration of the class `TrafficLight` is in
the header `TrafficLight.h`, which is not among the sources.  The spec gives
one current phase and one queue of phases owned by the light; the code names
them `_currentPhase` and `_messages`. -/
structure TrafficLight where
  _currentPhase : TrafficLightPhase
  _messages : MessageQueue TrafficLightPhase
deriving DecidableEq, Repr

/-! ## MessageQueue -/

/-- `MessageQueue<T>::receive` (lines 10-22).  The wait predicate is
`!_queue.empty()`: on an empty queue the call does not get past
`_condition.wait` and there is no result (`none`).  Otherwise the element at
`_queue.back()` is moved out, `pop_back()` removes it, and it is returned
together with the remaining queue. -/
def MessageQueue.receive {T : Type} (q : MessageQueue T) : Option (T × MessageQueue T) :=
  match q._queue.getLast? with
  | none => none
  | some msg => some (msg, ⟨q._queue.dropLast⟩)

/-- `MessageQueue<T>::send` (lines 24-32): `_queue.push_back(std::move(msg))`.
The call to `_queue.clear()` is commented out in the source, so nothing is
removed. -/
def MessageQueue.send {T : Type} (q : MessageQueue T) (msg : T) : MessageQueue T :=
  ⟨q._queue ++ [msg]⟩

/-- An operation of a client on a queue: `send(msg)` or `receive()`. -/
inductive QueueOp (T : Type) where
  | send (msg : T)
  | receive

/-- Bookkeeping of a sequence of queue operations: the queue, the number of
calls of `send`, and the number of calls of `receive` that returned. -/
structure QueueLog (T : Type) where
  queue : MessageQueue T
  sends : Nat
  receives : Nat

/-- Apply one operation.  A `receive` on an empty queue does not return, so
it is not counted and the queue stays as it is. -/
def QueueLog.apply {T : Type} (l : QueueLog T) : QueueOp T → QueueLog T
  | .send msg => ⟨l.queue.send msg, l.sends + 1, l.receives⟩
  | .receive =>
    match l.queue.receive with
    | none => l
    | some (_, q) => ⟨q, l.sends, l.receives + 1⟩

/-- Apply a sequence of operations, first operation first. -/
def QueueLog.run {T : Type} (l : QueueLog T) (ops : List (QueueOp T)) : QueueLog T :=
  ops.foldl QueueLog.apply l

/-! ## TrafficLight -/

/-- The constructor `TrafficLight::TrafficLight()` (lines 36-39): phase red
and a fresh, empty message queue. -/
def TrafficLight.ctor : TrafficLight :=
  ⟨TrafficLightPhase.red, ⟨[]⟩⟩

/-- `TrafficLight::getCurrentPhase` (lines 55-57). -/
def TrafficLight.getCurrentPhase (tl : TrafficLight) : TrafficLightPhase :=
  tl._currentPhase

/-- `TrafficLight::setCurrentPhase` (lines 59-61). -/
def TrafficLight.setCurrentPhase (tl : TrafficLight) (currentPhase : TrafficLightPhase) :
    TrafficLight :=
  { tl with _currentPhase := currentPhase }

/-- The body of `if (timeSinceLastUpdate >= cycleDurations)` up to
`future.wait()` (lines 89-97): flip the phase with `setCurrentPhase`, then
`send` the value of `getCurrentPhase()` to `_messages` and wait for the send
to finish. -/
def TrafficLight.toggleAndSend (tl : TrafficLight) : TrafficLight :=
  let tl1 :=
    if tl.getCurrentPhase = TrafficLightPhase.red then
      tl.setCurrentPhase TrafficLightPhase.green
    else
      tl.setCurrentPhase TrafficLightPhase.red
  { tl1 with _messages := tl1._messages.send tl1.getCurrentPhase }

/-- The state after `n` consecutive toggles of the producer loop. -/
def TrafficLight.toggles : Nat → TrafficLight → TrafficLight
  | 0, tl => tl
  | n + 1, tl => (TrafficLight.toggles n tl).toggleAndSend

/-- The expression `(6 - rand() % 3) * 1000` (lines 78 and 103), where `r`
is the value returned by `rand()`. -/
def cycleDuration (r : Nat) : Int :=
  (6 - ((r % 3 : Nat) : Int)) * 1000

/-- The local state of `cycleThroughPhases` together with the light it
drives: `lastUpdate` (milliseconds) and `cycleDurations`. -/
structure CycleState where
  light : TrafficLight
  lastUpdate : Int
  cycleDurations : Int
deriving DecidableEq, Repr

/-- The part of `cycleThroughPhases` before the loop (lines 74-82): draw the
first cycle length from `rand()` (value `r`) and read the clock (`now`). -/
def TrafficLight.cycleThroughPhasesInit (tl : TrafficLight) (r : Nat) (now : Int) : CycleState :=
  ⟨tl, now, cycleDuration r⟩

/-- The inputs of one iteration of the loop: the clock reading of line 86,
the clock reading of line 100 and the value of `rand()` of line 103 (the last
two are only used when the phase is toggled). -/
structure CycleInput where
  now : Int
  nowAfter : Int
  r : Nat

/-- One iteration of `while (true)` in `cycleThroughPhases` (lines 84-106). -/
def cycleThroughPhasesIter (s : CycleState) (i : CycleInput) : CycleState :=
  let timeSinceLastUpdate := i.now - s.lastUpdate
  if timeSinceLastUpdate ≥ s.cycleDurations then
    ⟨s.light.toggleAndSend, i.nowAfter, cycleDuration i.r⟩
  else
    s

/-- The first `inputs.length` iterations of the loop of
`cycleThroughPhases`, started on `tl`. -/
def TrafficLight.cycleThroughPhases (tl : TrafficLight) (r : Nat) (now : Int)
    (inputs : List CycleInput) : CycleState :=
  inputs.foldl cycleThroughPhasesIter (tl.cycleThroughPhasesInit r now)

/-- The iterations of a run of the loop, started in state `s`, in which the
condition of line 88 holds, that is, those that publish a phase, in order.
Each carries its clock readings: `now` (line 86, taken just before the
publication) and `nowAfter` (line 100, taken just after it). -/
def cycleThroughPhasesPublications (s : CycleState) : List CycleInput → List CycleInput
  | [] => []
  | i :: rest =>
    if i.now - s.lastUpdate ≥ s.cycleDurations then
      i :: cycleThroughPhasesPublications (cycleThroughPhasesIter s i) rest
    else
      cycleThroughPhasesPublications (cycleThroughPhasesIter s i) rest

/-- What the scheduler lets happen next while a consumer is inside
`waitForGreen`: the producer performs a toggle, or the consumer performs one
iteration of its loop. -/
inductive Step where
  | toggle
  | receive
deriving DecidableEq, Repr

/-- One atomic step on the light: a producer toggle, or a `receive()` by a
consumer (which stays blocked, changing nothing, while the queue is empty). -/
def TrafficLight.step (tl : TrafficLight) : Step → TrafficLight
  | .toggle => tl.toggleAndSend
  | .receive =>
    match tl._messages.receive with
    | none => tl
    | some (_, q) => { tl with _messages := q }

/-- The state reached by a sequence of atomic steps. -/
def TrafficLight.run (tl : TrafficLight) (steps : List Step) : TrafficLight :=
  steps.foldl TrafficLight.step tl

/-- The outcome of `waitForGreen` along a finite schedule: it has returned
(in the given state of the light), or it is still inside its loop. -/
inductive WaitOutcome where
  | returned (tl : TrafficLight)
  | waiting (tl : TrafficLight)
deriving DecidableEq, Repr

/-- `TrafficLight::waitForGreen` (lines 41-53) along a schedule.  At a
`receive` step the loop body runs once: `_messages->receive()`; when the
received phase is green the method returns, otherwise the value is dropped
and the loop goes on.  While the queue is empty the call of `receive` stays
blocked.  At a `toggle` step the producer toggles and sends. -/
def TrafficLight.waitForGreen (tl : TrafficLight) : List Step → WaitOutcome
  | [] => .waiting tl
  | .toggle :: rest => TrafficLight.waitForGreen tl.toggleAndSend rest
  | .receive :: rest =>
    match tl._messages.receive with
    | none => TrafficLight.waitForGreen tl rest
    | some (phase, q) =>
      if phase = TrafficLightPhase.green then
        .returned { tl with _messages := q }
      else
        TrafficLight.waitForGreen { tl with _messages := q } rest

/-! ## Basic facts on the queue -/

theorem MessageQueue.receive_nil {T : Type} :
    (⟨[]⟩ : MessageQueue T).receive = none := rfl

theorem MessageQueue.receive_append_singleton {T : Type} (l : List T) (x : T) :
    (⟨l ++ [x]⟩ : MessageQueue T).receive = some (x, ⟨l⟩) := by
  simp [MessageQueue.receive]

theorem MessageQueue.receive_send {T : Type} (q : MessageQueue T) (x : T) :
    (q.send x).receive = some (x, q) := by
  cases q
  simp [MessageQueue.send, MessageQueue.receive]

theorem MessageQueue.send_queue {T : Type} (q : MessageQueue T) (x : T) :
    (q.send x)._queue = q._queue ++ [x] := rfl

theorem QueueLog.apply_balance {T : Type} (l : QueueLog T) (op : QueueOp T)
    (h : l.queue._queue.length + l.receives = l.sends) :
    (l.apply op).queue._queue.length + (l.apply op).receives = (l.apply op).sends := by
  cases op with
  | send msg =>
    simp only [QueueLog.apply, MessageQueue.send_queue, List.length_append,
      List.length_singleton]
    omega
  | receive =>
    obtain ⟨⟨q⟩, s, r⟩ := l
    rcases List.eq_nil_or_concat q with hq | ⟨l0, x, hq⟩
    · subst hq
      simpa [QueueLog.apply, MessageQueue.receive] using h
    · subst hq
      simp only [List.concat_eq_append, List.length_append, List.length_singleton] at h
      simp only [QueueLog.apply, List.concat_eq_append,
        MessageQueue.receive_append_singleton]
      omega

theorem QueueLog.run_balance {T : Type} (ops : List (QueueOp T)) (l : QueueLog T)
    (h : l.queue._queue.length + l.receives = l.sends) :
    (l.run ops).queue._queue.length + (l.run ops).receives = (l.run ops).sends := by
  induction ops generalizing l with
  | nil => simpa [QueueLog.run] using h
  | cons op ops ih =>
    have := ih (l.apply op) (QueueLog.apply_balance l op h)
    simpa [QueueLog.run] using this

/-! ## Claims on the queue -/

/-- C1: on an initially empty queue, `send(a); send(b); receive()` returns
`b`, the next `receive()` returns `a`, and the queue is then empty (so a
further `receive()` would have nothing to return). -/
theorem MessageQueue.send_send_receive_lifo {T : Type} (a b : T) :
    (((⟨[]⟩ : MessageQueue T).send a).send b).receive
        = some (b, (⟨[]⟩ : MessageQueue T).send a)
    ∧ ((⟨[]⟩ : MessageQueue T).send a).receive = some (a, ⟨[]⟩)
    ∧ ((((⟨[]⟩ : MessageQueue T).send a).send b).receive.bind fun r1 =>
        r1.2.receive.map fun r2 => (r1.1, r2.1, r2.2._queue)) = some (b, a, []) := by
  refine ⟨MessageQueue.receive_send _ _, MessageQueue.receive_send _ _, ?_⟩
  simp [MessageQueue.receive_send]

/-- C7: `send(v)` is a total operation whose result is the old content with
`v` appended at the back: the length grows by exactly one and every position
of the old content keeps its element; the new position holds `v`. -/
theorem MessageQueue.send_appends_back {T : Type} (q : MessageQueue T) (v : T) :
    (q.send v)._queue = q._queue ++ [v]
    ∧ (q.send v)._queue.length = q._queue.length + 1
    ∧ (q.send v)._queue.take q._queue.length = q._queue
    ∧ ∀ i : Nat, (q.send v)._queue[i]? =
        if i < q._queue.length then q._queue[i]?
        else if i = q._queue.length then some v else none := by
  refine ⟨rfl, by simp [MessageQueue.send_queue], by simp [MessageQueue.send_queue], ?_⟩
  intro i
  rw [MessageQueue.send_queue]
  by_cases h1 : i < q._queue.length
  · simp [h1, List.getElem?_append_left]
  · by_cases h2 : i = q._queue.length
    · subst h2
      simp
    · have h3 : q._queue.length + 1 ≤ i := by omega
      rw [if_neg h1, if_neg h2]
      exact List.getElem?_eq_none (by simpa using h3)

/-- C10: `send(x)` directly followed by `receive()` returns `x` and restores
the content `q`; along every sequence of operations on an initially empty
queue the number of pending elements is the number of sends minus the number
of completed receives; and a send keeps all older elements in the queue. -/
theorem MessageQueue.send_receive_cancel {T : Type} (q : MessageQueue T) (x : T) :
    (q.send x).receive = some (x, q)
    ∧ (∀ ops : List (QueueOp T),
        ((⟨⟨[]⟩, 0, 0⟩ : QueueLog T).run ops).receives
            ≤ ((⟨⟨[]⟩, 0, 0⟩ : QueueLog T).run ops).sends
        ∧ ((⟨⟨[]⟩, 0, 0⟩ : QueueLog T).run ops).queue._queue.length
            = ((⟨⟨[]⟩, 0, 0⟩ : QueueLog T).run ops).sends
              - ((⟨⟨[]⟩, 0, 0⟩ : QueueLog T).run ops).receives)
    ∧ (q.send x)._queue.dropLast = q._queue := by
  refine ⟨MessageQueue.receive_send q x, ?_, by simp [MessageQueue.send_queue]⟩
  intro ops
  have h := QueueLog.run_balance ops (⟨⟨[]⟩, 0, 0⟩ : QueueLog T) rfl
  omega

/-! ## Basic facts on the producer -/

theorem TrafficLight.toggleAndSend_phase (tl : TrafficLight) :
    tl.toggleAndSend._currentPhase =
      if tl._currentPhase = TrafficLightPhase.red then TrafficLightPhase.green
      else TrafficLightPhase.red := by
  obtain ⟨p, q⟩ := tl
  cases p <;> rfl

theorem TrafficLight.toggleAndSend_phase_ne (tl : TrafficLight) :
    tl.toggleAndSend._currentPhase ≠ tl._currentPhase := by
  obtain ⟨p, q⟩ := tl
  cases p <;> simp [TrafficLight.toggleAndSend_phase]

theorem TrafficLight.toggleAndSend_queue (tl : TrafficLight) :
    tl.toggleAndSend._messages._queue
      = tl._messages._queue ++ [tl.toggleAndSend._currentPhase] := by
  obtain ⟨p, q⟩ := tl
  cases p <;> rfl

theorem TrafficLight.toggleAndSend_receive (tl : TrafficLight) :
    tl.toggleAndSend._messages.receive
      = some (tl.toggleAndSend._currentPhase, tl._messages) := by
  obtain ⟨p, q⟩ := tl
  cases p <;> exact MessageQueue.receive_send _ _

theorem cycleDuration_cases (r : Nat) :
    cycleDuration r = 4000 ∨ cycleDuration r = 5000 ∨ cycleDuration r = 6000 := by
  unfold cycleDuration
  have h : r % 3 = 0 ∨ r % 3 = 1 ∨ r % 3 = 2 := by omega
  rcases h with h | h | h <;> simp [h]

theorem cycleThroughPhasesIter_of_ge (s : CycleState) (i : CycleInput)
    (h : i.now - s.lastUpdate ≥ s.cycleDurations) :
    cycleThroughPhasesIter s i = ⟨s.light.toggleAndSend, i.nowAfter, cycleDuration i.r⟩ := by
  simp [cycleThroughPhasesIter, h]

theorem cycleThroughPhasesIter_of_lt (s : CycleState) (i : CycleInput)
    (h : i.now - s.lastUpdate < s.cycleDurations) :
    cycleThroughPhasesIter s i = s := by
  have h2 : ¬ (i.now - s.lastUpdate ≥ s.cycleDurations) := by omega
  simp [cycleThroughPhasesIter, h2]

theorem cycleDurations_foldl_ge (inputs : List CycleInput) (s : CycleState)
    (h : 4000 ≤ s.cycleDurations) :
    4000 ≤ (inputs.foldl cycleThroughPhasesIter s).cycleDurations := by
  induction inputs generalizing s with
  | nil => simpa using h
  | cons i inputs ih =>
    rw [List.foldl_cons]
    apply ih
    by_cases hc : i.now - s.lastUpdate ≥ s.cycleDurations
    · rw [cycleThroughPhasesIter_of_ge s i hc]
      rcases cycleDuration_cases i.r with h1 | h1 | h1 <;> simp [h1]
    · rw [cycleThroughPhasesIter_of_lt s i (by omega)]
      exact h

theorem TrafficLight.toggles_queue (N : Nat) (tl : TrafficLight) :
    (tl.toggles N)._messages._queue =
      tl._messages._queue
        ++ (List.range N).map (fun i => (tl.toggles (i + 1)).getCurrentPhase) := by
  induction N with
  | zero => simp [TrafficLight.toggles]
  | succ n ih =>
    rw [List.range_succ, List.map_append, ← List.append_assoc, ← ih]
    show (tl.toggles n).toggleAndSend._messages._queue = _
    rw [TrafficLight.toggleAndSend_queue]
    rfl

/-! ## Claims on the producer loop -/

/-- C2: over `N` consecutive toggles the phases sent to the queue are, in
order, the current phases right after each toggle; each toggle changes the
current phase, so every published phase differs from the one published
directly before it. -/
theorem TrafficLight.toggles_alternate (N : Nat) (tl : TrafficLight) :
    (tl.toggles N)._messages._queue =
        tl._messages._queue
          ++ (List.range N).map (fun i => (tl.toggles (i + 1)).getCurrentPhase)
    ∧ (∀ i : Nat, (tl.toggles (i + 1)).getCurrentPhase ≠ (tl.toggles i).getCurrentPhase)
    ∧ List.Chain' (fun a b => a ≠ b)
        ((List.range N).map (fun i => (tl.toggles (i + 1)).getCurrentPhase)) := by
  have hflip : ∀ i : Nat,
      (tl.toggles (i + 1)).getCurrentPhase ≠ (tl.toggles i).getCurrentPhase :=
    fun i => TrafficLight.toggleAndSend_phase_ne (tl.toggles i)
  refine ⟨TrafficLight.toggles_queue N tl, hflip, ?_⟩
  rw [List.chain'_map]
  cases N with
  | zero => simp
  | succ n =>
    rw [List.chain'_range_succ]
    intro m _
    exact (hflip (m + 1)).symm

/-- C5: the cycle length `(6 - r % 3) * 1000` is one of 4000, 5000, 6000 for
every value `r` of `rand()`, each of the three values occurs, and both the
draw before the loop and the redraw after a toggle are this expression. -/
theorem cycleDuration_values (r : Nat) :
    (cycleDuration r = 4000 ∨ cycleDuration r = 5000 ∨ cycleDuration r = 6000)
    ∧ cycleDuration 2 = 4000 ∧ cycleDuration 1 = 5000 ∧ cycleDuration 0 = 6000
    ∧ (∀ (tl : TrafficLight) (now : Int),
        (tl.cycleThroughPhasesInit r now).cycleDurations = cycleDuration r)
    ∧ (∀ (s : CycleState) (i : CycleInput),
        (cycleThroughPhasesIter s i).cycleDurations =
          if i.now - s.lastUpdate ≥ s.cycleDurations then cycleDuration i.r
          else s.cycleDurations) := by
  refine ⟨cycleDuration_cases r, by decide, by decide, by decide, fun _ _ => rfl, ?_⟩
  intro s i
  by_cases hc : i.now - s.lastUpdate ≥ s.cycleDurations
  · rw [cycleThroughPhasesIter_of_ge s i hc, if_pos hc]
  · rw [cycleThroughPhasesIter_of_lt s i (by omega), if_neg hc]

theorem cycleDuration_ge (r : Nat) : 4000 ≤ cycleDuration r := by
  rcases cycleDuration_cases r with h1 | h1 | h1 <;> simp [h1]

theorem cycleThroughPhasesPublications_length (inputs : List CycleInput) (s : CycleState) :
    (inputs.foldl cycleThroughPhasesIter s).light._messages._queue.length
      = s.light._messages._queue.length
        + (cycleThroughPhasesPublications s inputs).length := by
  induction inputs generalizing s with
  | nil => simp [cycleThroughPhasesPublications]
  | cons i inputs ih =>
    rw [List.foldl_cons, ih]
    by_cases hc : i.now - s.lastUpdate ≥ s.cycleDurations
    · simp only [cycleThroughPhasesPublications, if_pos hc, List.length_cons]
      rw [cycleThroughPhasesIter_of_ge s i hc]
      show s.light.toggleAndSend._messages._queue.length + _ = _
      rw [TrafficLight.toggleAndSend_queue, List.length_append, List.length_singleton]
      omega
    · simp only [cycleThroughPhasesPublications, if_neg hc]
      rw [cycleThroughPhasesIter_of_lt s i (by omega)]

theorem cycleThroughPhasesPublications_nil (inputs : List CycleInput) (s : CycleState)
    (h : cycleThroughPhasesPublications s inputs = []) :
    inputs.foldl cycleThroughPhasesIter s = s := by
  induction inputs generalizing s with
  | nil => rfl
  | cons i inputs ih =>
    by_cases hc : i.now - s.lastUpdate ≥ s.cycleDurations
    · simp [cycleThroughPhasesPublications, hc] at h
    · simp only [cycleThroughPhasesPublications, if_neg hc] at h
      rw [List.foldl_cons]
      rw [cycleThroughPhasesIter_of_lt s i (by omega)] at h ⊢
      exact ih s h

theorem cycleThroughPhasesPublications_chain (inputs : List CycleInput) (s : CycleState)
    (a : CycleInput) (ha : a.nowAfter = s.lastUpdate) (hs : 4000 ≤ s.cycleDurations) :
    List.Chain (fun x y : CycleInput => y.now - x.nowAfter ≥ 4000) a
      (cycleThroughPhasesPublications s inputs) := by
  induction inputs generalizing s a with
  | nil => exact List.Chain.nil
  | cons i inputs ih =>
    by_cases hc : i.now - s.lastUpdate ≥ s.cycleDurations
    · simp only [cycleThroughPhasesPublications, if_pos hc]
      refine List.Chain.cons (by omega) ?_
      apply ih
      · rw [cycleThroughPhasesIter_of_ge s i hc]
      · rw [cycleThroughPhasesIter_of_ge s i hc]
        exact cycleDuration_ge i.r
    · simp only [cycleThroughPhasesPublications, if_neg hc]
      rw [cycleThroughPhasesIter_of_lt s i (by omega)]
      exact ih s a ha hs

/-- C6: one iteration of the loop toggles the phase and sends exactly one
message (the new phase) exactly when the elapsed time is at least the drawn
cycle length, and otherwise changes nothing.  A publishing iteration resets
`lastUpdate` to the clock reading taken right after the publication and
redraws the cycle length, so that no phase is published while fewer than
4000 ms have elapsed since the previous publication: after a publishing
iteration `i`, and any further iterations that publish nothing, an iteration
whose clock reading is less than 4000 ms after the reading of `i` publishes
nothing; and along every run of the loop, the first publication comes at
least 4000 ms after the start and every later one at least 4000 ms after the
one before it. -/
theorem cycleThroughPhasesIter_toggles_iff (s : CycleState) (i : CycleInput) :
    (cycleThroughPhasesIter s i).light =
        (if i.now - s.lastUpdate ≥ s.cycleDurations then s.light.toggleAndSend else s.light)
    ∧ s.light.toggleAndSend._currentPhase ≠ s.light._currentPhase
    ∧ s.light.toggleAndSend._messages._queue
        = s.light._messages._queue ++ [s.light.toggleAndSend._currentPhase]
    ∧ (i.now - s.lastUpdate ≥ s.cycleDurations ↔
        (cycleThroughPhasesIter s i).light._currentPhase ≠ s.light._currentPhase)
    ∧ (i.now - s.lastUpdate ≥ s.cycleDurations ↔
        (cycleThroughPhasesIter s i).light._messages._queue.length
          = s.light._messages._queue.length + 1)
    ∧ (i.now - s.lastUpdate < s.cycleDurations → cycleThroughPhasesIter s i = s)
    ∧ (∀ (tl : TrafficLight) (r : Nat) (now : Int) (inputs : List CycleInput)
        (j : CycleInput),
        j.now - (tl.cycleThroughPhases r now inputs).lastUpdate < 4000 →
        cycleThroughPhasesIter (tl.cycleThroughPhases r now inputs) j
          = tl.cycleThroughPhases r now inputs)
    ∧ (cycleThroughPhasesIter s i).lastUpdate =
        (if i.now - s.lastUpdate ≥ s.cycleDurations then i.nowAfter else s.lastUpdate)
    ∧ (∀ (mid : List CycleInput) (j : CycleInput),
        i.now - s.lastUpdate ≥ s.cycleDurations →
        (mid.foldl cycleThroughPhasesIter (cycleThroughPhasesIter s i)).light._messages._queue.length
          = (cycleThroughPhasesIter s i).light._messages._queue.length →
        j.now - i.nowAfter < 4000 →
        cycleThroughPhasesIter
            (mid.foldl cycleThroughPhasesIter (cycleThroughPhasesIter s i)) j
          = mid.foldl cycleThroughPhasesIter (cycleThroughPhasesIter s i))
    ∧ (∀ (tl : TrafficLight) (r : Nat) (now : Int) (inputs : List CycleInput),
        (tl.cycleThroughPhases r now inputs).light._messages._queue.length
          = tl._messages._queue.length
            + (cycleThroughPhasesPublications (tl.cycleThroughPhasesInit r now) inputs).length
        ∧ List.Chain' (fun x y : CycleInput => y.now - x.nowAfter ≥ 4000)
            (cycleThroughPhasesPublications (tl.cycleThroughPhasesInit r now) inputs)
        ∧ ∀ b : CycleInput,
            (cycleThroughPhasesPublications (tl.cycleThroughPhasesInit r now) inputs).head?
              = some b →
            b.now - now ≥ 4000) := by
  refine ⟨?_, TrafficLight.toggleAndSend_phase_ne _, TrafficLight.toggleAndSend_queue _,
    ?_, ?_, cycleThroughPhasesIter_of_lt s i, ?_, ?_, ?_, ?_⟩
  · by_cases hc : i.now - s.lastUpdate ≥ s.cycleDurations
    · rw [cycleThroughPhasesIter_of_ge s i hc, if_pos hc]
    · rw [cycleThroughPhasesIter_of_lt s i (by omega), if_neg hc]
  · constructor
    · intro hc
      rw [cycleThroughPhasesIter_of_ge s i hc]
      exact TrafficLight.toggleAndSend_phase_ne _
    · intro hne
      by_contra hc
      rw [cycleThroughPhasesIter_of_lt s i (by omega)] at hne
      exact hne rfl
  · constructor
    · intro hc
      rw [cycleThroughPhasesIter_of_ge s i hc]
      show s.light.toggleAndSend._messages._queue.length = _
      rw [TrafficLight.toggleAndSend_queue]
      simp
    · intro hlen
      by_contra hc
      rw [cycleThroughPhasesIter_of_lt s i (by omega)] at hlen
      omega
  · intro tl r now inputs j hj
    apply cycleThroughPhasesIter_of_lt
    have h0 : 4000 ≤ (tl.cycleThroughPhasesInit r now).cycleDurations := by
      show 4000 ≤ cycleDuration r
      rcases cycleDuration_cases r with h1 | h1 | h1 <;> simp [h1]
    have h4 := cycleDurations_foldl_ge inputs (tl.cycleThroughPhasesInit r now) h0
    unfold TrafficLight.cycleThroughPhases at hj ⊢
    omega
  · by_cases hc : i.now - s.lastUpdate ≥ s.cycleDurations
    · rw [cycleThroughPhasesIter_of_ge s i hc, if_pos hc]
    · rw [cycleThroughPhasesIter_of_lt s i (by omega), if_neg hc]
  · intro mid j hc hlen hj
    have hlen2 := cycleThroughPhasesPublications_length mid (cycleThroughPhasesIter s i)
    have hnil : cycleThroughPhasesPublications (cycleThroughPhasesIter s i) mid = [] :=
      List.length_eq_zero.mp (by omega)
    rw [cycleThroughPhasesPublications_nil mid _ hnil]
    apply cycleThroughPhasesIter_of_lt
    rw [cycleThroughPhasesIter_of_ge s i hc]
    have := cycleDuration_ge i.r
    show j.now - i.nowAfter < cycleDuration i.r
    omega
  · intro tl r now inputs
    have hch := cycleThroughPhasesPublications_chain inputs (tl.cycleThroughPhasesInit r now)
      ⟨now, now, r⟩ rfl (cycleDuration_ge r)
    refine ⟨cycleThroughPhasesPublications_length inputs (tl.cycleThroughPhasesInit r now),
      ?_, ?_⟩
    · have h2 : List.Chain' (fun x y : CycleInput => y.now - x.nowAfter ≥ 4000)
          ((⟨now, now, r⟩ : CycleInput)
            :: cycleThroughPhasesPublications (tl.cycleThroughPhasesInit r now) inputs) := hch
      exact h2.tail
    · intro b hb
      cases hl : cycleThroughPhasesPublications (tl.cycleThroughPhasesInit r now) inputs with
      | nil => simp [hl] at hb
      | cons c l =>
        rw [hl] at hb hch
        simp only [List.head?_cons, Option.some.injEq] at hb
        subst hb
        exact (List.chain_cons.mp hch).1

theorem TrafficLight.waitForGreen_append (s1 s2 : List Step) (tl : TrafficLight) :
    tl.waitForGreen (s1 ++ s2) =
      match tl.waitForGreen s1 with
      | .returned t => .returned t
      | .waiting t => t.waitForGreen s2 := by
  induction s1 generalizing tl with
  | nil => rfl
  | cons e s1 ih =>
    cases e with
    | toggle =>
      simp only [List.cons_append, TrafficLight.waitForGreen]
      exact ih _
    | receive =>
      simp only [List.cons_append, TrafficLight.waitForGreen]
      cases hr : tl._messages.receive with
      | none => exact ih _
      | some pq =>
        obtain ⟨phase, q⟩ := pq
        by_cases hg : phase = TrafficLightPhase.green
        · simp [hg]
        · simp only [hg, if_false]
          exact ih _

theorem TrafficLight.waitForGreen_drop_reds (n k : Nat) (p : TrafficLightPhase)
    (base : List TrafficLightPhase) (h : n ≤ k) :
    (⟨p, ⟨base ++ List.replicate k TrafficLightPhase.red⟩⟩ : TrafficLight).waitForGreen
        (List.replicate n Step.receive)
      = .waiting ⟨p, ⟨base ++ List.replicate (k - n) TrafficLightPhase.red⟩⟩ := by
  induction n generalizing k with
  | zero => rfl
  | succ n ih =>
    obtain ⟨k0, rfl⟩ : ∃ k0, k = k0 + 1 := ⟨k - 1, by omega⟩
    have hq : base ++ List.replicate (k0 + 1) TrafficLightPhase.red
        = (base ++ List.replicate k0 TrafficLightPhase.red) ++ [TrafficLightPhase.red] := by
      rw [List.replicate_succ', List.append_assoc]
    rw [hq, List.replicate_succ]
    simp only [TrafficLight.waitForGreen, MessageQueue.receive_append_singleton,
      reduceCtorEq, if_false]
    have := ih k0 (by omega)
    simpa using this

theorem TrafficLight.waitForGreen_take_green (p : TrafficLightPhase)
    (older : List TrafficLightPhase) (rest : List Step) :
    (⟨p, ⟨older ++ [TrafficLightPhase.green]⟩⟩ : TrafficLight).waitForGreen
        (Step.receive :: rest)
      = .returned ⟨p, ⟨older⟩⟩ := by
  simp [TrafficLight.waitForGreen, MessageQueue.receive_append_singleton]

theorem exists_last_green (q : List TrafficLightPhase) (h : TrafficLightPhase.green ∈ q) :
    ∃ (older : List TrafficLightPhase) (k : Nat),
      q = older ++ TrafficLightPhase.green :: List.replicate k TrafficLightPhase.red := by
  induction q using List.reverseRecOn with
  | nil => simp at h
  | append_singleton l x ih =>
    cases x with
    | green => exact ⟨l, 0, by simp⟩
    | red =>
      have hl : TrafficLightPhase.green ∈ l := by simpa using h
      obtain ⟨older, k, hk⟩ := ih hl
      refine ⟨older, k + 1, ?_⟩
      rw [hk, List.replicate_succ']
      simp

/-! ## Claims on `waitForGreen` -/

/-- C3, as stated, fails: after two toggles the queue holds green below red;
`waitForGreen` drops the red, receives the older green and returns while the
current phase is red. -/
theorem TrafficLight.waitForGreen_returns_while_red :
    TrafficLight.ctor.waitForGreen [Step.toggle, Step.toggle, Step.receive, Step.receive]
        = WaitOutcome.returned ⟨TrafficLightPhase.red, ⟨[]⟩⟩
    ∧ ¬ ∀ (pre sched : List Step) (tl : TrafficLight),
        (TrafficLight.ctor.run pre).waitForGreen sched = WaitOutcome.returned tl →
        tl.getCurrentPhase = TrafficLightPhase.green := by
  refine ⟨by decide, ?_⟩
  intro h
  have h1 := h [] [Step.toggle, Step.toggle, Step.receive, Step.receive]
    ⟨TrafficLightPhase.red, ⟨[]⟩⟩ (by decide)
  exact absurd h1 (by decide)

/-- C3, amended: from every state reachable from a newly constructed light,
when `waitForGreen` returns at a receive step that directly follows a
producer toggle (so that it receives the phase just published), the current
phase is green, and the older content of the queue is untouched by those two
steps. -/
theorem TrafficLight.waitForGreen_after_toggle (pre sched : List Step)
    (tl tl' : TrafficLight)
    (h1 : (TrafficLight.ctor.run pre).waitForGreen sched = WaitOutcome.waiting tl)
    (h2 : (TrafficLight.ctor.run pre).waitForGreen (sched ++ [Step.toggle, Step.receive])
      = WaitOutcome.returned tl') :
    tl'.getCurrentPhase = TrafficLightPhase.green ∧ tl'._messages = tl._messages := by
  rw [TrafficLight.waitForGreen_append, h1] at h2
  simp only [TrafficLight.waitForGreen, TrafficLight.toggleAndSend_receive] at h2
  by_cases hg : tl.toggleAndSend._currentPhase = TrafficLightPhase.green
  · simp only [hg, if_true, WaitOutcome.returned.injEq] at h2
    subst h2
    exact ⟨rfl, rfl⟩
  · simp [hg] at h2

/-- The amended C3 at a concrete run: two toggles leave green below red; the
waiter drops the red, the producer toggles to green, and the next receive
returns with the current phase green. -/
theorem TrafficLight.waitForGreen_after_toggle_witness :
    (TrafficLight.ctor.run [Step.toggle, Step.toggle]).waitForGreen [Step.receive]
        = WaitOutcome.waiting ⟨TrafficLightPhase.red, ⟨[TrafficLightPhase.green]⟩⟩
    ∧ (TrafficLight.ctor.run [Step.toggle, Step.toggle]).waitForGreen
          ([Step.receive] ++ [Step.toggle, Step.receive])
        = WaitOutcome.returned ⟨TrafficLightPhase.green, ⟨[TrafficLightPhase.green]⟩⟩
    ∧ (⟨TrafficLightPhase.green, ⟨[TrafficLightPhase.green]⟩⟩ : TrafficLight).getCurrentPhase
        = TrafficLightPhase.green
    ∧ (⟨TrafficLightPhase.green, ⟨[TrafficLightPhase.green]⟩⟩ : TrafficLight)._messages
        = (⟨TrafficLightPhase.red, ⟨[TrafficLightPhase.green]⟩⟩ : TrafficLight)._messages :=
  ⟨by decide, by decide,
    TrafficLight.waitForGreen_after_toggle [Step.toggle, Step.toggle] [Step.receive]
      ⟨TrafficLightPhase.red, ⟨[TrafficLightPhase.green]⟩⟩
      ⟨TrafficLightPhase.green, ⟨[TrafficLightPhase.green]⟩⟩ (by decide) (by decide)⟩

/-- C4: with no producer step in between, `waitForGreen` on a queue that
contains a green splits the content as `older ++ green :: reds`, where
`reds` are the elements pushed after the last green; each of its first
`reds.length` receives drops one red, the next receive takes the green and
the method returns with exactly `older` left.  When the element pushed last
is green, there is no red to drop and a single receive removes that one
element. -/
theorem TrafficLight.waitForGreen_filtered (p : TrafficLightPhase)
    (q : List TrafficLightPhase) (h : TrafficLightPhase.green ∈ q) :
    ∃ (older : List TrafficLightPhase) (k : Nat),
      q = older ++ TrafficLightPhase.green :: List.replicate k TrafficLightPhase.red
      ∧ (∀ n : Nat,
          (⟨p, ⟨q⟩⟩ : TrafficLight).waitForGreen (List.replicate n Step.receive) =
            if n ≤ k then
              WaitOutcome.waiting
                ⟨p, ⟨older ++ TrafficLightPhase.green
                  :: List.replicate (k - n) TrafficLightPhase.red⟩⟩
            else WaitOutcome.returned ⟨p, ⟨older⟩⟩)
      ∧ (q.getLast? = some TrafficLightPhase.green →
          k = 0 ∧ older = q.dropLast
          ∧ (⟨p, ⟨q⟩⟩ : TrafficLight).waitForGreen [Step.receive]
              = WaitOutcome.returned ⟨p, ⟨q.dropLast⟩⟩) := by
  obtain ⟨older, k, hq⟩ := exists_last_green q h
  have hq2 : q = (older ++ [TrafficLightPhase.green])
      ++ List.replicate k TrafficLightPhase.red := by
    rw [hq]; simp
  refine ⟨older, k, hq, ?_, ?_⟩
  · intro n
    by_cases hn : n ≤ k
    · rw [if_pos hn, hq2, TrafficLight.waitForGreen_drop_reds n k p _ hn]
      simp
    · rw [if_neg hn]
      obtain ⟨m, rfl⟩ : ∃ m, n = k + (m + 1) := ⟨n - k - 1, by omega⟩
      rw [List.replicate_add, TrafficLight.waitForGreen_append, hq2,
        TrafficLight.waitForGreen_drop_reds k k p _ (le_refl k)]
      simp only [Nat.sub_self, List.replicate_zero, List.append_nil, List.replicate_succ]
      exact TrafficLight.waitForGreen_take_green p older _
  · intro hlast
    have hk : k = 0 := by
      cases k with
      | zero => rfl
      | succ k0 =>
        rw [hq2, List.replicate_succ', ← List.append_assoc, List.getLast?_concat] at hlast
        exact absurd hlast (by decide)
    subst hk
    have hq3 : q = older ++ [TrafficLightPhase.green] := by simpa using hq2
    refine ⟨rfl, by simp [hq3], ?_⟩
    rw [hq3]
    simpa using TrafficLight.waitForGreen_take_green p older []

/-- C4 at the concrete content red, green, red, red (oldest first). -/
theorem TrafficLight.waitForGreen_filtered_witness :
    TrafficLightPhase.green ∈
        [TrafficLightPhase.red, TrafficLightPhase.green, TrafficLightPhase.red,
          TrafficLightPhase.red]
    ∧ ∃ (older : List TrafficLightPhase) (k : Nat),
      [TrafficLightPhase.red, TrafficLightPhase.green, TrafficLightPhase.red,
          TrafficLightPhase.red]
        = older ++ TrafficLightPhase.green :: List.replicate k TrafficLightPhase.red
      ∧ (∀ n : Nat,
          (⟨TrafficLightPhase.red,
              ⟨[TrafficLightPhase.red, TrafficLightPhase.green, TrafficLightPhase.red,
                TrafficLightPhase.red]⟩⟩ : TrafficLight).waitForGreen
              (List.replicate n Step.receive) =
            if n ≤ k then
              WaitOutcome.waiting
                ⟨TrafficLightPhase.red, ⟨older ++ TrafficLightPhase.green
                  :: List.replicate (k - n) TrafficLightPhase.red⟩⟩
            else WaitOutcome.returned ⟨TrafficLightPhase.red, ⟨older⟩⟩)
      ∧ ([TrafficLightPhase.red, TrafficLightPhase.green, TrafficLightPhase.red,
            TrafficLightPhase.red].getLast? = some TrafficLightPhase.green →
          k = 0
          ∧ older = [TrafficLightPhase.red, TrafficLightPhase.green, TrafficLightPhase.red,
              TrafficLightPhase.red].dropLast
          ∧ (⟨TrafficLightPhase.red,
              ⟨[TrafficLightPhase.red, TrafficLightPhase.green, TrafficLightPhase.red,
                TrafficLightPhase.red]⟩⟩ : TrafficLight).waitForGreen [Step.receive]
              = WaitOutcome.returned
                ⟨TrafficLightPhase.red,
                  ⟨[TrafficLightPhase.red, TrafficLightPhase.green, TrafficLightPhase.red,
                    TrafficLightPhase.red].dropLast⟩⟩) :=
  ⟨by decide, TrafficLight.waitForGreen_filtered TrafficLightPhase.red _ (by decide)⟩
